import Mathlib

/-!
A shallow embedding of the TriCore FreeRTOS port layer
(`src/os/FreeRTOS-Kernel-10.4.3/portable/TriCore/port.c`): the context save
area (CSA) free pool, initial-context construction, context-chain
reclamation, the save/select/restore switch engine, the system-tick handler
and the interrupt-mask primitives, together with theorems about them.

Machine words are modelled as `Nat` with explicit masking where the code
masks; CSA memory is a function from record address and word index to the
stored word.
-/

namespace TriCorePort

/-! ### Constants defined in port.c -/

/-- Supervisor Mode, MPU Register Set 0 and Call Depth Counting disabled. -/
def portSYSTEM_PROGRAM_STATUS_WORD : Nat := 0x000008FF

/-- The PCXI tag marking a link to an upper context; the lower 20 bits
identify the CSA address. -/
def portINITIAL_PCXI_UPPER_CONTEXT_WORD : Nat := 0x00300000

/-- MPU disable value loaded into SYSCON at scheduler start. -/
def portINITIAL_SYSCON : Nat := 0x00000000

/-- Mask of the 20 address bits of a CSA link word. -/
def portCSA_FCX_MASK : Nat := 0x000FFFFF

/-- Complement of the low byte of the PSW within a 32-bit word
(the C source writes this as the 32-bit complement of 0xFF). -/
def portRESTORE_PSW_MASK : Nat := 0xFFFFFF00

/-- Each CSA contains 16 words of data. -/
def portNUM_WORDS_IN_CSA : Nat := 16

/-- Modelled from the spec: the current-priority (CCPN) field of the
interrupt control register occupies the low byte; the mask constant lives in
the port header, which is not under src. -/
def portCCPN_MASK : Nat := 0x000000FF

/-! ### CSA memory -/

/-- CSA memory: record address → word index → stored word. -/
abbrev Mem := Nat → Nat → Nat

/-- Store `v` at word `w` of the record at address `a`. -/
def memUpdate (m : Mem) (a w v : Nat) : Mem :=
  fun a' w' => if a' = a ∧ w' = w then v else m a' w'

/-- The effect of `memset( p, 0, portNUM_WORDS_IN_CSA * sizeof( unsigned long ) )`
on the record at address `a`. -/
def clearCSA (m : Mem) (a : Nat) : Mem :=
  fun a' w' => if a' = a ∧ w' < portNUM_WORDS_IN_CSA then 0 else m a' w'

/-- Modelled from the spec: CSA identifiers occupy the low 20 bits of a word
and are converted to an address at every access (`portCSA_TO_ADDRESS` in the
port header, which is not under src).  The model uses the identifier itself,
masked to its 20 address bits, as the record's address; a null pointer is
address 0. -/
def portCSA_TO_ADDRESS (x : Nat) : Nat := x &&& portCSA_FCX_MASK

/-- Modelled from the spec: the inverse address-to-identifier conversion;
under this model's addressing it is the identity. -/
def portADDRESS_TO_CSA (a : Nat) : Nat := a

/-- Per-core CSA machine state: the record memory and the FCX register
holding the head of the free pool. -/
structure CSAState where
  mem : Mem
  fcx : Nat

/-! ### pxPortInitialiseStack (port.c lines 109-188) -/

/-- pxPortInitialiseStack: consume two chained free CSAs from the FCX pool,
zero them, fill the upper context (word 2 = stack pointer, word 1 = PSW) and
the lower context (word 8 = argument, word 1 = entry address, word 0 = tagged
link to the upper CSA) and return the new state together with the returned
lower-context identifier.  The C source computes `pulUpperCSA` only when
`pulLowerCSA` is non-null and then checks both for null in one condition;
the nested conditionals here have the same result.  `none` is the trap path
(`TriCore__svlcx()` raising the context-list depletion trap). -/
def pxPortInitialiseStack (s : CSAState) (pxTopOfStack pxCode pvParameters : Nat) :
    Option (CSAState × Nat) :=
  let pulLowerCSA := portCSA_TO_ADDRESS s.fcx
  if pulLowerCSA = 0 then none
  else
    let pulUpperCSA := portCSA_TO_ADDRESS (s.mem pulLowerCSA 0)
    if pulUpperCSA = 0 then none
    else
      let fcx' := s.mem pulUpperCSA 0
      let m1 := clearCSA s.mem pulUpperCSA
      let m2 := memUpdate m1 pulUpperCSA 2 pxTopOfStack
      let m3 := memUpdate m2 pulUpperCSA 1 portSYSTEM_PROGRAM_STATUS_WORD
      let m4 := clearCSA m3 pulLowerCSA
      let m5 := memUpdate m4 pulLowerCSA 8 pvParameters
      let m6 := memUpdate m5 pulLowerCSA 1 pxCode
      let m7 := memUpdate m6 pulLowerCSA 0
        (portINITIAL_PCXI_UPPER_CONTEXT_WORD ||| portADDRESS_TO_CSA pulUpperCSA)
      some (⟨m7, fcx'⟩, portADDRESS_TO_CSA pulLowerCSA)

/-- A four-record free pool 1 → 2 → 3 → 4 → terminator, used for the
end-to-end exhaustion scenario. -/
def pool4 : CSAState :=
  ⟨fun a w =>
    if a = 1 ∧ w = 0 then 2
    else if a = 2 ∧ w = 0 then 3
    else if a = 3 ∧ w = 0 then 4
    else 0,
   1⟩

/-- A two-record free pool 1 → 2 → terminator, used as a witness state. -/
def pool2 : CSAState :=
  ⟨fun a w => if a = 1 ∧ w = 0 then 2 else 0, 1⟩

/-- A state with an empty free pool (FCX null). -/
def emptyPool : CSAState := ⟨fun _ _ => 0, 0⟩

/-- State after building one task context on `pool4`. -/
def pool4AfterOne : Option CSAState :=
  (pxPortInitialiseStack pool4 11 12 13).map Prod.fst

/-- State after building two task contexts on `pool4`. -/
def pool4AfterTwo : Option CSAState :=
  pool4AfterOne.bind fun s => (pxPortInitialiseStack s 21 22 23).map Prod.fst

/-- Result of attempting a third build on `pool4`. -/
def pool4AfterThree : Option CSAState :=
  pool4AfterTwo.bind fun s => (pxPortInitialiseStack s 31 32 33).map Prod.fst

/-! ### vPortReclaimCSA (port.c lines 393-446) -/

/-- The while loop of vPortReclaimCSA: while the masked link word of the
record at the current tail is non-null, strip that link word down to its
address bits in place and advance the tail to the record it names.  The C
loop is unbounded; `fuel` makes the model total, and one unit per chain
record suffices. -/
def reclaimLoop (m : Mem) (pxTailCSA : Nat) : Nat → Option (Mem × Nat)
  | 0 => none
  | fuel + 1 =>
    let pulNextCSA := portCSA_TO_ADDRESS pxTailCSA
    if m pulNextCSA 0 &&& portCSA_FCX_MASK = 0 then some (m, pxTailCSA)
    else
      reclaimLoop (memUpdate m pulNextCSA 0 (m pulNextCSA 0 &&& portCSA_FCX_MASK))
        (m pulNextCSA 0 &&& portCSA_FCX_MASK) fuel

/-- vPortReclaimCSA: mask the handle stored in the first TCB word to its
address bits, walk the chain to its tail stripping tag bits from every link
word on the way, then splice the whole chain in front of the free pool: the
tail's link word receives the current FCX and FCX receives the chain's
head. -/
def vPortReclaimCSA (s : CSAState) (pxTCBTop : Nat) (fuel : Nat) : Option CSAState :=
  let pxHeadCSA := pxTCBTop &&& portCSA_FCX_MASK
  match reclaimLoop s.mem pxHeadCSA fuel with
  | none => none
  | some (m1, pxTailCSA) =>
    some ⟨memUpdate m1 (portCSA_TO_ADDRESS pxTailCSA) 0 s.fcx, pxHeadCSA⟩

/-- The records `cs` form a linked chain in memory `m`: each record's link
word, masked to its address bits, names the next record, and the last
record's masked link word is the null terminator. -/
def chainLinks (m : Mem) : List Nat → Bool
  | [] => true
  | [a] => m a 0 &&& portCSA_FCX_MASK == 0
  | a :: b :: rest => (m a 0 &&& portCSA_FCX_MASK == b) && chainLinks m (b :: rest)

/-- The records `cs` form a linked chain whose link words hold the next
record's identifier exactly (tag bits already stripped). -/
def chainExact (m : Mem) : List Nat → Bool
  | [] => true
  | [_] => true
  | a :: b :: rest => (m a 0 == b) && chainExact m (b :: rest)

/-- The first at-most-`n` records of the free pool reachable from register
value `fcx`, following link words through the identifier-to-address
conversion. -/
def poolWalk (m : Mem) (fcx : Nat) : Nat → List Nat
  | 0 => []
  | n + 1 =>
    let a := portCSA_TO_ADDRESS fcx
    if a = 0 then [] else a :: poolWalk m (m a 0) n

/-- The free pool reachable from register value `fcx` is exactly the record
list `cs`, ending in the null terminator. -/
def poolChain (m : Mem) (fcx : Nat) : List Nat → Bool
  | [] => portCSA_TO_ADDRESS fcx == 0
  | a :: rest => (portCSA_TO_ADDRESS fcx == a) && (a != 0) && poolChain m (m a 0) rest

/-- A three-record context chain 1 → 2 → 3 with tagged link words, over a
free pool whose head register holds 77. -/
def chain3 : CSAState :=
  ⟨fun a w =>
    if a = 1 ∧ w = 0 then 0x00300002
    else if a = 2 ∧ w = 0 then 0x00300003
    else 0,
   77⟩

/-! ### Switch engine (port.c lines 296-332) -/

/-- State seen by the switch engine on one core: the CSA memory, the PCXI
register (holding the context link captured by hardware on interrupt or trap
entry), the per-core current-task index, and each task's TCB saved-context
field (the first TCB word, `pxTopOfStack`). -/
structure YieldState where
  mem : Mem
  pcxi : Nat
  curTask : Nat
  tcbTop : Nat → Nat

/-- prvYield: read PCXI, convert it to the address of the most recent
context record, save that record's link word into the current task's TCB
saved-context field, invoke the task-selection policy (vTaskSwitchContext is
external kernel code, modelled from the spec as installing the externally
selected task `sel` as current), then write the newly selected task's
saved-context field back into that same link word.  The PCXI register is
read but never written. -/
def prvYield (sel : Nat) (s : YieldState) : YieldState :=
  let pxUpperCSA := portCSA_TO_ADDRESS s.pcxi
  let s1 : YieldState :=
    { s with tcbTop := fun t => if t = s.curTask then s.mem pxUpperCSA 0 else s.tcbTop t }
  let s2 : YieldState := { s1 with curTask := sel }
  { s2 with mem := memUpdate s2.mem pxUpperCSA 0 (s2.tcbTop s2.curTask) }

/-- Modelled from the spec: the numeric code of the voluntary-yield trap
sub-operation (defined in the port header, which is not under src; its value
is irrelevant to the theorems below). -/
def portSYSCALL_TASK_YIELD : Nat := 0

/-- vTrapYield: dispatch on the trap identification; the yield sub-operation
runs prvYield, any other value is the fatal unimplemented-trap assertion,
modelled as `none`. -/
def vTrapYield (iTrapIdentification sel : Nat) (s : YieldState) : Option YieldState :=
  if iTrapIdentification = portSYSCALL_TASK_YIELD then some (prvYield sel s) else none

/-- vPortSystemTaskHandler: a plain call into prvYield. -/
def vPortSystemTaskHandler (sel : Nat) (s : YieldState) : YieldState := prvYield sel s

/-- vPortYield: save the lower context, run the system task handler, restore
the lower context.  The svlcx/rslcx pair pushes and pops one hardware frame
on the current call chain around the switch; on the state observed here the
function acts as prvYield through vPortSystemTaskHandler. -/
def vPortYield (sel : Nat) (s : YieldState) : YieldState := vPortSystemTaskHandler sel s

/-! ### Interrupt masking (port.c lines 485-497) and tick handling -/

/-- uxPortSetInterruptMaskFromISR: read ICR, write it back with the CCPN
field replaced by the kernel's maximum syscall priority, and return just the
previous CCPN bits.  `prio` stands for configMAX_SYSCALL_INTERRUPT_PRIORITY,
defined in the kernel configuration header, which is not under src.  The C
complement of the CCPN mask is taken within a 32-bit word.  Returns
(previous CCPN field, new ICR value). -/
def uxPortSetInterruptMaskFromISR (prio icr : Nat) : Nat × Nat :=
  (icr &&& portCCPN_MASK, (icr &&& (0xFFFFFFFF ^^^ portCCPN_MASK)) ||| prio)

/-- Modelled from the spec: portCLEAR_INTERRUPT_MASK_FROM_ISR (port header,
not under src) restores the CCPN field of ICR from the previously saved mask
bits, leaving the rest of the register unchanged. -/
def portCLEAR_INTERRUPT_MASK_FROM_ISR (saved icr : Nat) : Nat :=
  (icr &&& (0xFFFFFFFF ^^^ portCCPN_MASK)) ||| (saved &&& portCCPN_MASK)

/-- vPortSystemTickHandler: raise the interrupt mask to the kernel's maximum
syscall priority, invoke xTaskIncrementTick (external kernel tick
accounting, modelled from the spec as an oracle whose report is
`yieldRequired`), clear the mask to its saved value, and run prvYield
exactly when a switch is due.  The result carries the new ICR, the new
switch-engine state, and the list of CCPN values in force at each
xTaskIncrementTick invocation (to express "invoked exactly once, under the
raised mask"). -/
def vPortSystemTickHandler (prio : Nat) (yieldRequired : Bool) (sel icr : Nat)
    (ys : YieldState) : Nat × YieldState × List Nat :=
  let masked := uxPortSetInterruptMaskFromISR prio icr
  let ulSavedInterruptMask := masked.1
  let tickLog := [masked.2 &&& portCCPN_MASK]
  let icr2 := portCLEAR_INTERRUPT_MASK_FROM_ISR ulSavedInterruptMask masked.2
  let ys2 := if yieldRequired then prvYield sel ys else ys
  (icr2, ys2, tickLog)

/-- Modelled from the spec: IfxStm_increaseCompare (timer driver, not under
src) reprograms the timer's compare value forward by one tick period. -/
def IfxStm_increaseCompare (comparator ticksFor1ms : Nat) : Nat :=
  comparator + ticksFor1ms

/-- isrSTM: the per-core system-timer interrupt service routine: advance the
STM comparator by one tick period, then run the system tick handler.
Returns (new comparator, new ICR, new switch-engine state, tick-accounting
invocation log). -/
def isrSTM (prio P : Nat) (yieldRequired : Bool) (sel comparator icr : Nat)
    (ys : YieldState) : Nat × Nat × YieldState × List Nat :=
  let comparator2 := IfxStm_increaseCompare comparator P
  let r := vPortSystemTickHandler prio yieldRequired sel icr ys
  (comparator2, r.1, r.2.1, r.2.2)

/-! ### Switch interleavings for the switch invariant -/

/-- One switch-relevant event on a single core: a voluntary yield through
the trap interface, a voluntary yield through the call interface, or a tick
interrupt whose tick accounting may or may not demand a switch.  Each event
carries the task the external selection policy installs if a switch
happens. -/
inductive SwitchEvent where
  | yieldTrap (sel : Nat)
  | yieldCall (sel : Nat)
  | tick (yieldRequired : Bool) (sel : Nat)

/-- The selection the event's switch installs, or `none` if the event
performs no switch. -/
def eventSel : SwitchEvent → Option Nat
  | .yieldTrap sel => some sel
  | .yieldCall sel => some sel
  | .tick yieldRequired sel => if yieldRequired then some sel else none

/-- The selection made by the last completed switch in the event list (the
head of the list happens first). -/
def lastSwitchSel : List SwitchEvent → Option Nat
  | [] => none
  | e :: rest =>
    match lastSwitchSel rest with
    | some x => some x
    | none => eventSel e

/-- Apply one event to the ICR register and switch-engine state. -/
def stepEvent (prio : Nat) (e : SwitchEvent) (st : Nat × YieldState) :
    Nat × YieldState :=
  match e with
  | .yieldTrap sel => (st.1, (vTrapYield portSYSCALL_TASK_YIELD sel st.2).getD st.2)
  | .yieldCall sel => (st.1, vPortYield sel st.2)
  | .tick yieldRequired sel =>
    let r := vPortSystemTickHandler prio yieldRequired sel st.1 st.2
    (r.1, r.2.1)

/-- Run a list of events, head first. -/
def runEvents (prio : Nat) : List SwitchEvent → Nat × YieldState → Nat × YieldState
  | [], st => st
  | e :: rest, st => runEvents prio rest (stepEvent prio e st)

/-- A concrete switch-engine state: PCXI names record 5 whose link word is
7; task 0 is current; task 1's saved handle is 9. -/
def ys0 : YieldState :=
  ⟨fun a w => if a = 5 ∧ w = 0 then 7 else 0, 5, 0, fun t => if t = 1 then 9 else 0⟩

/-! ### Scheduler start (port.c lines 255-293) -/

/-- Registers visible to the bootstrap sequence, together with the CSA
memory and the current task's TCB saved-context word. -/
structure BootState where
  mem : Mem
  curTCBTop : Nat
  pcxi : Nat
  psw : Nat
  syscon : Nat
  a4 : Nat
  a11 : Nat

/-- Modelled from the spec: the RSLCX instruction reloads the lower context
from the record named by PCXI: the link register A11 (return address), the
argument register A4 and PCXI itself are restored from that record's words
1, 8 and 0. -/
def rslcx (s : BootState) : BootState :=
  let a := portCSA_TO_ADDRESS s.pcxi
  { s with pcxi := s.mem a 0, a11 := s.mem a 1, a4 := s.mem a 8 }

/-- xPortStartScheduler: load the initial SYSCON, clear the low PSW byte
(call-depth counting) so that the later return-from-exception does not
fault, load PCXI from the first task's TCB saved-context word, and reload
the lower context.  The C function then executes `return 0`, which transfers
control to the address now held in the restored link register A11; the
result is the final register state paired with that control-transfer
target. -/
def xPortStartScheduler (s : BootState) : BootState × Nat :=
  let s1 : BootState := { s with syscon := portINITIAL_SYSCON }
  let s2 : BootState := { s1 with psw := s1.psw &&& portRESTORE_PSW_MASK }
  let s3 : BootState := { s2 with pcxi := s2.curTCBTop }
  let s4 := rslcx s3
  (s4, s4.a11)

/-- The state produced by building one context on `pool2`. -/
def builtPool2 : CSAState :=
  ((pxPortInitialiseStack pool2 100 200 300).getD (emptyPool, 0)).1

/-- A concrete bootstrap state whose memory holds the built context and
whose current TCB word is the returned handle. -/
def bootB : BootState := ⟨builtPool2.mem, 1, 7, 0xABCD, 5, 11, 13⟩

/-! ### Allocate/release sequences over the free pool -/

/-- One pool operation: build a task context (pxPortInitialiseStack) or
reclaim a previously built two-record chain (vPortReclaimCSA), the chain
being identified by its (lower, upper) record pair. -/
inductive PoolOp where
  | alloc (tos code param : Nat)
  | release (chain : Nat × Nat)

/-- State for allocate/release sequences: the CSA machine state and the
list of live task chains, each a (lower, upper) record pair. -/
structure PoolSys where
  st : CSAState
  live : List (Nat × Nat)

/-- The record cells of a live two-record chain. -/
def chainCells (c : Nat × Nat) : List Nat := [c.1, c.2]

/-- Remove the first occurrence of a chain from the live list. -/
def removeFirst : List (Nat × Nat) → (Nat × Nat) → List (Nat × Nat)
  | [], _ => []
  | x :: xs, c => if x = c then xs else x :: removeFirst xs c

/-- Apply one pool operation.  An allocation that traps leaves the state
unchanged (the trap halts the requesting core; no handle is produced); a
release of a chain that is not live, or whose walk runs out of fuel, also
leaves the state unchanged. -/
def stepPoolOp (sys : PoolSys) : PoolOp → PoolSys
  | .alloc tos code param =>
    match pxPortInitialiseStack sys.st tos code param with
    | none => sys
    | some (s', _) =>
      ⟨s', (portCSA_TO_ADDRESS sys.st.fcx,
            portCSA_TO_ADDRESS (sys.st.mem (portCSA_TO_ADDRESS sys.st.fcx) 0)) ::
          sys.live⟩
  | .release c =>
    if c ∈ sys.live then
      match vPortReclaimCSA sys.st c.1 2 with
      | none => sys
      | some s' => ⟨s', removeFirst sys.live c⟩
    else sys

/-- Run a sequence of pool operations, head first. -/
def runPoolOps (ops : List PoolOp) (sys : PoolSys) : PoolSys :=
  ops.foldl stepPoolOp sys

/-- A live chain is well-formed in memory `m`: both records are non-null
20-bit identifiers, the lower link word holds the tagged upper identifier,
and the upper link word is the terminator. -/
def liveOK (m : Mem) (c : Nat × Nat) : Prop :=
  c.1 ≠ 0 ∧ c.1 < 2 ^ 20 ∧ c.2 ≠ 0 ∧ c.2 < 2 ^ 20 ∧
  m c.1 0 = (portINITIAL_PCXI_UPPER_CONTEXT_WORD ||| c.2) ∧ m c.2 0 = 0

/-- The pool-system invariant over a universe `U` of record identifiers:
some record list is exactly the free pool; that list and the cells of all
live chains are pairwise distinct (no record is reachable from two chains);
every reachable record lies in `U`; and every live chain is well-formed. -/
def poolInv (U : List Nat) (sys : PoolSys) : Prop :=
  ∃ pool : List Nat,
    poolChain sys.st.mem sys.st.fcx pool = true ∧
    (pool ++ (sys.live.map chainCells).flatten).Nodup ∧
    (∀ a ∈ pool ++ (sys.live.map chainCells).flatten, a ∈ U) ∧
    ∀ c ∈ sys.live, liveOK sys.st.mem c

/-- The pool system with the two-record pool and no live chains. -/
def sys2 : PoolSys := ⟨pool2, []⟩

end TriCorePort

namespace TriCorePort

/-! ### Pointwise memory lemmas -/

/-- Reading an updated cell. -/
theorem memUpdate_self {m : Mem} {a w v : Nat} : memUpdate m a w v a w = v :=
  if_pos ⟨rfl, rfl⟩

/-- Reading any other cell. -/
theorem memUpdate_ne {m : Mem} {a w v a' w' : Nat} (h : ¬(a' = a ∧ w' = w)) :
    memUpdate m a w v a' w' = m a' w' :=
  if_neg h

/-- Reading a word of a cleared record. -/
theorem clearCSA_self {m : Mem} {a w : Nat} (h : w < portNUM_WORDS_IN_CSA) :
    clearCSA m a a w = 0 :=
  if_pos ⟨rfl, h⟩

/-- Reading outside a cleared record. -/
theorem clearCSA_ne {m : Mem} {a a' w' : Nat}
    (h : ¬(a' = a ∧ w' < portNUM_WORDS_IN_CSA)) :
    clearCSA m a a' w' = m a' w' :=
  if_neg h

/-! ### Pointwise description of pxPortInitialiseStack -/

/-- Full pointwise description of a successful `pxPortInitialiseStack`: the
returned handle is the lower record's identifier, FCX advances past the
upper record, the two records hold exactly the initial-context words and
zeros elsewhere, and no record outside the consumed pair is touched. -/
theorem pxPortInitialiseStack_parts (s : CSAState) (tos code param l u : Nat)
    (hldef : l = portCSA_TO_ADDRESS s.fcx)
    (hudef : u = portCSA_TO_ADDRESS (s.mem l 0))
    (hl : l ≠ 0) (hu : u ≠ 0) :
    ∃ s1 : CSAState,
      pxPortInitialiseStack s tos code param = some (s1, l) ∧
      s1.fcx = s.mem u 0 ∧
      s1.mem l 0 = (portINITIAL_PCXI_UPPER_CONTEXT_WORD ||| u) ∧
      s1.mem l 1 = code ∧
      s1.mem l 8 = param ∧
      (l ≠ u → s1.mem u 0 = 0) ∧
      (l ≠ u → s1.mem u 1 = portSYSTEM_PROGRAM_STATUS_WORD) ∧
      (l ≠ u → s1.mem u 2 = tos) ∧
      (∀ w, w < portNUM_WORDS_IN_CSA → w ≠ 0 → w ≠ 1 → w ≠ 8 → s1.mem l w = 0) ∧
      (l ≠ u → ∀ w, w < portNUM_WORDS_IN_CSA → w ≠ 1 → w ≠ 2 → s1.mem u w = 0) ∧
      (∀ a w, a ≠ l → a ≠ u → s1.mem a w = s.mem a w) := by
  subst hldef
  simp only [pxPortInitialiseStack, portADDRESS_TO_CSA]
  rw [if_neg hl, ← hudef, if_neg hu]
  refine ⟨_, rfl, rfl, ?_, ?_, ?_, ?_, ?_, ?_, ?_, ?_, ?_⟩
  · change memUpdate _ _ _ _ _ _ = _
    rw [memUpdate_self]
  · change memUpdate _ _ _ _ _ _ = _
    rw [memUpdate_ne (fun h => Nat.one_ne_zero h.2), memUpdate_self]
  · change memUpdate _ _ _ _ _ _ = _
    rw [memUpdate_ne (fun h => absurd h.2 (by decide)),
      memUpdate_ne (fun h => absurd h.2 (by decide)), memUpdate_self]
  · intro hlu
    change memUpdate _ _ _ _ _ _ = _
    rw [memUpdate_ne (fun h => hlu h.1.symm), memUpdate_ne (fun h => hlu h.1.symm),
      memUpdate_ne (fun h => hlu h.1.symm), clearCSA_ne (fun h => hlu h.1.symm),
      memUpdate_ne (fun h => absurd h.2 (by decide)),
      memUpdate_ne (fun h => absurd h.2 (by decide)), clearCSA_self (by decide)]
  · intro hlu
    change memUpdate _ _ _ _ _ _ = _
    rw [memUpdate_ne (fun h => hlu h.1.symm), memUpdate_ne (fun h => hlu h.1.symm),
      memUpdate_ne (fun h => hlu h.1.symm), clearCSA_ne (fun h => hlu h.1.symm),
      memUpdate_self]
  · intro hlu
    change memUpdate _ _ _ _ _ _ = _
    rw [memUpdate_ne (fun h => hlu h.1.symm), memUpdate_ne (fun h => hlu h.1.symm),
      memUpdate_ne (fun h => hlu h.1.symm), clearCSA_ne (fun h => hlu h.1.symm),
      memUpdate_ne (fun h => absurd h.2 (by decide)), memUpdate_self]
  · intro w hw h0 h1 h8
    change memUpdate _ _ _ _ _ _ = _
    rw [memUpdate_ne (fun h => h0 h.2), memUpdate_ne (fun h => h1 h.2),
      memUpdate_ne (fun h => h8 h.2), clearCSA_self hw]
  · intro hlu w hw h1 h2
    change memUpdate _ _ _ _ _ _ = _
    rw [memUpdate_ne (fun h => hlu h.1.symm), memUpdate_ne (fun h => hlu h.1.symm),
      memUpdate_ne (fun h => hlu h.1.symm), clearCSA_ne (fun h => hlu h.1.symm),
      memUpdate_ne (fun h => h1 h.2), memUpdate_ne (fun h => h2 h.2), clearCSA_self hw]
  · intro a w hal hau
    change memUpdate _ _ _ _ _ _ = _
    rw [memUpdate_ne (fun h => hal h.1), memUpdate_ne (fun h => hal h.1),
      memUpdate_ne (fun h => hal h.1), clearCSA_ne (fun h => hal h.1),
      memUpdate_ne (fun h => hau h.1), memUpdate_ne (fun h => hau h.1),
      clearCSA_ne (fun h => hau h.1)]

/-! ### Theorems: claim C1 -/

/-- C1: for every entry procedure, argument and top-of-stack address, when at
least two chained free context records are available (the lower record named
by FCX and the distinct upper record it links to), `pxPortInitialiseStack`
builds a two-record initial context: the upper context holds the stack
pointer in word 2 and the fixed initial PSW (supervisor privilege, call-depth
counting disabled) in word 1; the lower context holds the argument in word 8,
the entry address in word 1 and in word 0 the linked-to-upper tag combined
with the upper record's identifier; every other word of both 16-word records
is zero; and the returned handle is the identifier of the lower record. -/
theorem pxPortInitialiseStack_builds_initial_context
    (s : CSAState) (tos code param l u : Nat)
    (hldef : l = portCSA_TO_ADDRESS s.fcx)
    (hudef : u = portCSA_TO_ADDRESS (s.mem l 0))
    (hl : l ≠ 0) (hu : u ≠ 0) (hne : l ≠ u) :
    ∃ s1 : CSAState,
      pxPortInitialiseStack s tos code param = some (s1, l) ∧
      s1.mem u 2 = tos ∧
      s1.mem u 1 = portSYSTEM_PROGRAM_STATUS_WORD ∧
      s1.mem l 8 = param ∧
      s1.mem l 1 = code ∧
      s1.mem l 0 = (portINITIAL_PCXI_UPPER_CONTEXT_WORD ||| u) ∧
      (∀ w, w < portNUM_WORDS_IN_CSA → w ≠ 1 → w ≠ 2 → s1.mem u w = 0) ∧
      (∀ w, w < portNUM_WORDS_IN_CSA → w ≠ 0 → w ≠ 1 → w ≠ 8 → s1.mem l w = 0) := by
  obtain ⟨s1, hbuild, -, hl0, hl1, hl8, -, hu1, hu2, hlz, huz, -⟩ :=
    pxPortInitialiseStack_parts s tos code param l u hldef hudef hl hu
  exact ⟨s1, hbuild, hu2 hne, hu1 hne, hl8, hl1, hl0, huz hne, hlz⟩

/-- Witness for C1 at a concrete two-record pool. -/
theorem pxPortInitialiseStack_builds_initial_context_witness :
    (1 : Nat) = portCSA_TO_ADDRESS pool2.fcx ∧
    (2 : Nat) = portCSA_TO_ADDRESS (pool2.mem 1 0) ∧
    ∃ s1 : CSAState,
      pxPortInitialiseStack pool2 100 200 300 = some (s1, 1) ∧
      s1.mem 2 2 = 100 ∧
      s1.mem 2 1 = portSYSTEM_PROGRAM_STATUS_WORD ∧
      s1.mem 1 8 = 300 ∧
      s1.mem 1 1 = 200 ∧
      s1.mem 1 0 = (portINITIAL_PCXI_UPPER_CONTEXT_WORD ||| 2) ∧
      (∀ w, w < portNUM_WORDS_IN_CSA → w ≠ 1 → w ≠ 2 → s1.mem 2 w = 0) ∧
      (∀ w, w < portNUM_WORDS_IN_CSA → w ≠ 0 → w ≠ 1 → w ≠ 8 → s1.mem 1 w = 0) :=
  ⟨by decide, by decide,
   pxPortInitialiseStack_builds_initial_context pool2 100 200 300 1 2
     (by decide) (by decide) (by decide) (by decide) (by decide)⟩

/-! ### Mask arithmetic helpers -/

/-- The 20-bit CSA address mask is `2 ^ 20 - 1`. -/
theorem portCSA_FCX_MASK_eq : portCSA_FCX_MASK = 2 ^ 20 - 1 := by decide

/-- Converting an identifier to an address yields a value below `2 ^ 20`. -/
theorem portCSA_TO_ADDRESS_lt (x : Nat) : portCSA_TO_ADDRESS x < 2 ^ 20 := by
  rw [portCSA_TO_ADDRESS, portCSA_FCX_MASK_eq, Nat.and_pow_two_sub_one_eq_mod]
  exact Nat.mod_lt _ (by norm_num)

/-- Masking a value below `2 ^ 20` with the CSA address mask is the
identity. -/
theorem and_mask_of_lt {x : Nat} (h : x < 2 ^ 20) : x &&& portCSA_FCX_MASK = x := by
  rw [portCSA_FCX_MASK_eq]
  exact Nat.and_pow_two_sub_one_of_lt_two_pow h

/-- Address conversion of a value below `2 ^ 20` is the identity. -/
theorem portCSA_TO_ADDRESS_of_lt {x : Nat} (h : x < 2 ^ 20) :
    portCSA_TO_ADDRESS x = x := by
  rw [portCSA_TO_ADDRESS]
  exact and_mask_of_lt h

/-- Stripping the linked-to-upper tag from a tagged link recovers the
identifier. -/
theorem tagged_link_masked {u : Nat} (h : u < 2 ^ 20) :
    (portINITIAL_PCXI_UPPER_CONTEXT_WORD ||| u) &&& portCSA_FCX_MASK = u := by
  rw [Nat.and_distrib_right, and_mask_of_lt h,
    (by decide : portINITIAL_PCXI_UPPER_CONTEXT_WORD &&& portCSA_FCX_MASK = 0),
    Nat.zero_or]

/-! ### Theorems: claim C5 -/

/-- Allocation takes the trap path whenever either of the two pool records
is null. -/
theorem pxPortInitialiseStack_none (s : CSAState) (t c p : Nat)
    (h : portCSA_TO_ADDRESS s.fcx = 0 ∨
      portCSA_TO_ADDRESS (s.mem (portCSA_TO_ADDRESS s.fcx) 0) = 0) :
    pxPortInitialiseStack s t c p = none := by
  rcases h with h | h
  · simp only [pxPortInitialiseStack]
    rw [if_pos h]
  · simp only [pxPortInitialiseStack]
    by_cases hl : portCSA_TO_ADDRESS s.fcx = 0
    · rw [if_pos hl]
    · rw [if_neg hl, if_pos h]

/-- C5: whenever `pxPortInitialiseStack` cannot acquire two chained free
records (the free-pool head record is null, or the record it links to is
null), it takes the fatal trap path (`none`, the context-list depletion
trap) rather than returning a handle or touching state; and starting from a
pool of exactly four free records, two context builds succeed and a third
build takes the fatal path. -/
theorem pxPortInitialiseStack_exhaustion_traps :
    (∀ (s : CSAState) (t c p : Nat),
        portCSA_TO_ADDRESS s.fcx = 0 ∨
          portCSA_TO_ADDRESS (s.mem (portCSA_TO_ADDRESS s.fcx) 0) = 0 →
        pxPortInitialiseStack s t c p = none) ∧
    pool4AfterOne.isSome = true ∧
    pool4AfterTwo.isSome = true ∧
    pool4AfterThree = none :=
  ⟨pxPortInitialiseStack_none, by decide, by decide, rfl⟩

/-- Witness for C5: building on an empty pool takes the trap path. -/
theorem pxPortInitialiseStack_exhaustion_traps_witness :
    pxPortInitialiseStack emptyPool 1 2 3 = none :=
  pxPortInitialiseStack_exhaustion_traps.1 emptyPool 1 2 3 (Or.inl (by decide))

/-! ### Chain lemmas for reclamation -/

/-- `chainLinks` only depends on the link words of the chain's records. -/
theorem chainLinks_frame {m m' : Mem} (cs : List Nat) (h : chainLinks m cs = true)
    (hag : ∀ a ∈ cs, m' a 0 = m a 0) : chainLinks m' cs = true := by
  induction cs with
  | nil => exact h
  | cons a rest ih =>
    cases rest with
    | nil =>
      simp only [chainLinks] at h ⊢
      rw [hag a (by simp)]
      exact h
    | cons b r2 =>
      simp only [chainLinks, Bool.and_eq_true, beq_iff_eq] at h ⊢
      exact ⟨by rw [hag a (by simp)]; exact h.1,
             ih h.2 (fun x hx => hag x (List.mem_cons_of_mem a hx))⟩

/-- `chainExact` only depends on the link words of the chain's non-last
records. -/
theorem chainExact_frame {m m' : Mem} (cs : List Nat) (h : chainExact m cs = true)
    (hag : ∀ a ∈ cs.dropLast, m' a 0 = m a 0) : chainExact m' cs = true := by
  induction cs with
  | nil => exact h
  | cons a rest ih =>
    cases rest with
    | nil => simp [chainExact]
    | cons b r2 =>
      simp only [chainExact, Bool.and_eq_true, beq_iff_eq] at h ⊢
      refine ⟨by rw [hag a (by simp [List.dropLast_cons₂])]; exact h.1, ?_⟩
      exact ih h.2 (fun x hx => hag x (by simp [List.dropLast_cons₂, hx]))

/-- Running the reclamation loop over a well-formed chain reaches the tail
with fuel equal to the chain length, strips every non-last link word down to
the next record's identifier, and touches nothing else. -/
theorem reclaimLoop_spec :
    ∀ (rest : List Nat) (c : Nat) (m : Mem),
      (c :: rest).Nodup →
      (∀ a ∈ c :: rest, a ≠ 0 ∧ a < 2 ^ 20) →
      chainLinks m (c :: rest) = true →
      ∃ mF : Mem,
        reclaimLoop m c (rest.length + 1) =
          some (mF, (c :: rest).getLast (List.cons_ne_nil c rest)) ∧
        chainExact mF (c :: rest) = true ∧
        (∀ a w, a ∉ (c :: rest).dropLast ∨ w ≠ 0 → mF a w = m a w) := by
  intro rest
  induction rest with
  | nil =>
    intro c m _ helem hlinks
    refine ⟨m, ?_, by simp [chainExact], fun a w _ => rfl⟩
    simp only [chainLinks, beq_iff_eq] at hlinks
    simp only [reclaimLoop, List.length_nil]
    rw [portCSA_TO_ADDRESS_of_lt (helem c (by simp)).2, if_pos hlinks]
    simp [List.getLast]
  | cons b r2 ih =>
    intro c m hnodup helem hlinks
    simp only [chainLinks, Bool.and_eq_true, beq_iff_eq] at hlinks
    obtain ⟨hcb, hrest⟩ := hlinks
    have hbne : b ≠ 0 := (helem b (by simp)).1
    have hc20 : c < 2 ^ 20 := (helem c (by simp)).2
    have hcnotin : c ∉ b :: r2 := (List.nodup_cons.mp hnodup).1
    have hstep : reclaimLoop m c (r2.length + 1 + 1) =
        reclaimLoop (memUpdate m c 0 b) b (r2.length + 1) := by
      simp only [reclaimLoop]
      rw [portCSA_TO_ADDRESS_of_lt hc20, hcb, if_neg hbne]
    have hrest' : chainLinks (memUpdate m c 0 b) (b :: r2) = true := by
      refine chainLinks_frame _ hrest (fun a ha => ?_)
      have hanc : a ≠ c := fun hac => hcnotin (hac ▸ ha)
      exact memUpdate_ne (fun hh => hanc hh.1)
    obtain ⟨mF, hrun, hexact, hframe⟩ :=
      ih b (memUpdate m c 0 b) (List.Nodup.of_cons hnodup)
        (fun a ha => helem a (List.mem_cons_of_mem c ha)) hrest'
    have hlast : (c :: b :: r2).getLast (List.cons_ne_nil c (b :: r2)) =
        (b :: r2).getLast (List.cons_ne_nil b r2) :=
      List.getLast_cons (List.cons_ne_nil b r2)
    refine ⟨mF, ?_, ?_, ?_⟩
    · rw [List.length_cons, hstep, hrun, hlast]
    · simp only [chainExact, Bool.and_eq_true, beq_iff_eq]
      refine ⟨?_, hexact⟩
      have hcnd : c ∉ (b :: r2).dropLast :=
        fun hmem => hcnotin ((List.dropLast_sublist (b :: r2)).subset hmem)
      exact (hframe c 0 (Or.inl hcnd)).trans memUpdate_self
    · intro a w haw
      have hdl : (c :: b :: r2).dropLast = c :: (b :: r2).dropLast := by
        simp [List.dropLast_cons₂]
      rcases haw with hnotin | hw
      · rw [hdl] at hnotin
        have hac : a ≠ c := fun h => hnotin (h ▸ List.mem_cons_self c _)
        have hand : a ∉ (b :: r2).dropLast := fun h => hnotin (List.mem_cons_of_mem c h)
        exact (hframe a w (Or.inl hand)).trans (memUpdate_ne (fun hh => hac hh.1))
      · exact (hframe a w (Or.inr hw)).trans (memUpdate_ne (fun hh => hw hh.2))

/-- Following the free-pool walk along a chain whose link words are exact
recovers the chain. -/
theorem poolWalk_of_chainExact :
    ∀ (rest : List Nat) (c : Nat) (m : Mem),
      (∀ a ∈ c :: rest, a ≠ 0 ∧ a < 2 ^ 20) →
      chainExact m (c :: rest) = true →
      poolWalk m c (rest.length + 1) = c :: rest := by
  intro rest
  induction rest with
  | nil =>
    intro c m helem _
    simp [poolWalk, portCSA_TO_ADDRESS_of_lt (helem c (by simp)).2, (helem c (by simp)).1]
  | cons b r2 ih =>
    intro c m helem hex
    simp only [chainExact, Bool.and_eq_true, beq_iff_eq] at hex
    simp only [poolWalk, List.length_cons]
    rw [portCSA_TO_ADDRESS_of_lt (helem c (by simp)).2, if_neg (helem c (by simp)).1,
      hex.1]
    exact congrArg (c :: ·) (ih b m (fun a ha => helem a (List.mem_cons_of_mem c ha)) hex.2)

/-! ### Theorems: claim C2 -/

/-- C2: for every terminated task's saved-context handle naming a linked
chain of records whose last record's masked link word is the terminator,
`vPortReclaimCSA` walks the chain stripping the tag bits from each link
word, stores the current free-pool head into the tail record's link word,
and sets the free-pool head register to the chain's original head, so that
afterwards every record of the chain (however long it has grown) is
reachable from the free-pool head. -/
theorem vPortReclaimCSA_returns_whole_chain (s : CSAState) (c : Nat) (rest : List Nat)
    (handle : Nat)
    (hhandle : handle &&& portCSA_FCX_MASK = c)
    (hnodup : (c :: rest).Nodup)
    (helem : ∀ a ∈ c :: rest, a ≠ 0 ∧ a < 2 ^ 20)
    (hlinks : chainLinks s.mem (c :: rest) = true) :
    ∃ s' : CSAState,
      vPortReclaimCSA s handle (rest.length + 1) = some s' ∧
      s'.fcx = c ∧
      poolWalk s'.mem s'.fcx (rest.length + 1) = c :: rest ∧
      s'.mem ((c :: rest).getLast (List.cons_ne_nil c rest)) 0 = s.fcx := by
  obtain ⟨mF, hrun, hexact, hframe⟩ := reclaimLoop_spec rest c s.mem hnodup helem hlinks
  have htmem : (c :: rest).getLast (List.cons_ne_nil c rest) ∈ c :: rest :=
    List.getLast_mem _
  have ht20 : (c :: rest).getLast (List.cons_ne_nil c rest) < 2 ^ 20 :=
    (helem _ htmem).2
  have htnd : (c :: rest).getLast (List.cons_ne_nil c rest) ∉ (c :: rest).dropLast := by
    intro hmem
    have hsplit : (c :: rest).dropLast ++ [(c :: rest).getLast (List.cons_ne_nil c rest)] =
        c :: rest := List.dropLast_concat_getLast (List.cons_ne_nil c rest)
    have hnd2 : ((c :: rest).dropLast ++
        [(c :: rest).getLast (List.cons_ne_nil c rest)]).Nodup := by
      rw [hsplit]; exact hnodup
    exact (List.disjoint_of_nodup_append hnd2) hmem (by simp)
  refine ⟨⟨memUpdate mF
      (portCSA_TO_ADDRESS ((c :: rest).getLast (List.cons_ne_nil c rest))) 0 s.fcx, c⟩,
    ?_, rfl, ?_, ?_⟩
  · simp only [vPortReclaimCSA, hhandle, hrun]
  · apply poolWalk_of_chainExact rest c _ helem
    refine chainExact_frame _ hexact (fun a ha => ?_)
    have hat : a ≠ (c :: rest).getLast (List.cons_ne_nil c rest) :=
      fun h => htnd (h ▸ ha)
    rw [portCSA_TO_ADDRESS_of_lt ht20]
    exact memUpdate_ne (fun hh => hat hh.1)
  · rw [portCSA_TO_ADDRESS_of_lt ht20]
    exact memUpdate_self

/-- Witness for C2 at a concrete three-record chain with tagged links,
reclaimed through a handle carrying extra tag bits. -/
theorem vPortReclaimCSA_returns_whole_chain_witness :
    (0x00200001 : Nat) &&& portCSA_FCX_MASK = 1 ∧
    ((1 : Nat) :: [2, 3]).Nodup ∧
    (∀ a ∈ (1 : Nat) :: [2, 3], a ≠ 0 ∧ a < 2 ^ 20) ∧
    chainLinks chain3.mem ((1 : Nat) :: [2, 3]) = true ∧
    ∃ s' : CSAState,
      vPortReclaimCSA chain3 0x00200001 (([2, 3] : List Nat).length + 1) = some s' ∧
      s'.fcx = 1 ∧
      poolWalk s'.mem s'.fcx (([2, 3] : List Nat).length + 1) = (1 : Nat) :: [2, 3] ∧
      s'.mem (((1 : Nat) :: [2, 3]).getLast (List.cons_ne_nil 1 [2, 3])) 0 = chain3.fcx :=
  ⟨by decide, by decide, by decide, by decide,
   vPortReclaimCSA_returns_whole_chain chain3 1 [2, 3] 0x00200001
     (by decide) (by decide) (by decide) (by decide)⟩

/-! ### Shared helper lemma about reclaiming one context -/

/-- Pointwise description of reclaiming a fresh two-record chain: with the
lower identifier as handle, the loop strips the lower link word to the bare
upper identifier, the upper link word receives the old FCX, FCX receives the
lower identifier, and nothing else changes. -/
theorem vPortReclaimCSA_pair (s : CSAState) (l u : Nat)
    (hl0 : l ≠ 0) (hl20 : l < 2 ^ 20) (hu0 : u ≠ 0) (hu20 : u < 2 ^ 20) (hlu : l ≠ u)
    (hlink : s.mem l 0 &&& portCSA_FCX_MASK = u)
    (hterm : s.mem u 0 &&& portCSA_FCX_MASK = 0) :
    ∃ s2 : CSAState,
      vPortReclaimCSA s l 2 = some s2 ∧
      s2.fcx = l ∧
      s2.mem l 0 = u ∧
      s2.mem u 0 = s.fcx ∧
      (∀ a w, a ≠ l → a ≠ u → s2.mem a w = s.mem a w) := by
  have hmem8 : memUpdate s.mem l 0 u u 0 = s.mem u 0 :=
    memUpdate_ne (fun h => hlu h.1.symm)
  have hloop : reclaimLoop s.mem l 2 = some (memUpdate s.mem l 0 u, u) := by
    simp only [reclaimLoop]
    rw [portCSA_TO_ADDRESS_of_lt hl20]
    rw [if_neg (by rw [hlink]; exact hu0)]
    rw [hlink, portCSA_TO_ADDRESS_of_lt hu20, hmem8, hterm]
    simp
  refine ⟨⟨memUpdate (memUpdate s.mem l 0 u)
      (portCSA_TO_ADDRESS u) 0 s.fcx, l &&& portCSA_FCX_MASK⟩, ?_, ?_, ?_, ?_, ?_⟩
  · simp only [vPortReclaimCSA]
    rw [and_mask_of_lt hl20, hloop]
  · exact and_mask_of_lt hl20
  · rw [portCSA_TO_ADDRESS_of_lt hu20]
    exact (memUpdate_ne (fun h => hlu h.1)).trans memUpdate_self
  · rw [portCSA_TO_ADDRESS_of_lt hu20]
    exact memUpdate_self
  · intro a w hal hau
    rw [portCSA_TO_ADDRESS_of_lt hu20]
    exact (memUpdate_ne (fun h => hau h.1)).trans (memUpdate_ne (fun h => hal h.1))

/-- `poolChain` only depends on the link words of the pool's records. -/
theorem poolChain_frame {m m' : Mem} :
    ∀ (cs : List Nat) (f : Nat), poolChain m f cs = true →
      (∀ a ∈ cs, m' a 0 = m a 0) → poolChain m' f cs = true := by
  intro cs
  induction cs with
  | nil => intro f h _; exact h
  | cons a rest ih =>
    intro f h hag
    simp only [poolChain, Bool.and_eq_true, beq_iff_eq, bne_iff_ne] at h ⊢
    obtain ⟨⟨hf, ha⟩, hrest⟩ := h
    refine ⟨⟨hf, ha⟩, ?_⟩
    rw [hag a (by simp)]
    exact ih (m a 0) hrest (fun x hx => hag x (List.mem_cons_of_mem a hx))

/-- Every record of a free pool has a non-null identifier below `2 ^ 20`. -/
theorem poolChain_elem {m : Mem} :
    ∀ (cs : List Nat) (f : Nat), poolChain m f cs = true →
      ∀ a ∈ cs, a ≠ 0 ∧ a < 2 ^ 20 := by
  intro cs
  induction cs with
  | nil => intro f _ a ha; simp at ha
  | cons b rest ih =>
    intro f h a ha
    simp only [poolChain, Bool.and_eq_true, beq_iff_eq, bne_iff_ne] at h
    obtain ⟨⟨hf, hb⟩, hrest⟩ := h
    rcases List.mem_cons.mp ha with rfl | ha
    · exact ⟨hb, hf ▸ portCSA_TO_ADDRESS_lt f⟩
    · exact ih (m b 0) hrest a ha

/-! ### Theorems: claim C6 -/

/-- C6: for every pool state with at least two free records, building an
initial context with `pxPortInitialiseStack` and then immediately passing
the returned handle to `vPortReclaimCSA` returns exactly the two allocated
records to the free pool: the pool is afterwards exactly the same record
list as before. -/
theorem build_then_reclaim_restores_pool (s : CSAState) (tos code param l u : Nat)
    (rest : List Nat)
    (hpool : poolChain s.mem s.fcx (l :: u :: rest) = true)
    (hnodup : (l :: u :: rest).Nodup) :
    ∃ (s1 : CSAState) (h : Nat) (s2 : CSAState),
      pxPortInitialiseStack s tos code param = some (s1, h) ∧
      vPortReclaimCSA s1 h 2 = some s2 ∧
      poolChain s2.mem s2.fcx (l :: u :: rest) = true := by
  have hp := hpool
  simp only [poolChain, Bool.and_eq_true, beq_iff_eq, bne_iff_ne] at hp
  obtain ⟨⟨hfl, hl0⟩, ⟨hlu0, hu0⟩, hrest⟩ := hp
  have hl20 : l < 2 ^ 20 := hfl ▸ portCSA_TO_ADDRESS_lt s.fcx
  have hu20 : u < 2 ^ 20 := hlu0 ▸ portCSA_TO_ADDRESS_lt (s.mem l 0)
  have hlu : l ≠ u := by
    intro h
    exact (List.nodup_cons.mp hnodup).1 (h ▸ List.mem_cons_self u rest)
  have hlnotin : l ∉ u :: rest := (List.nodup_cons.mp hnodup).1
  have hunotin : u ∉ rest := (List.nodup_cons.mp (List.Nodup.of_cons hnodup)).1
  obtain ⟨s1, hbuild, hfcx1, hlow, -, -, hupp, -, -, -, -, hframe1⟩ :=
    pxPortInitialiseStack_parts s tos code param l u hfl.symm hlu0.symm hl0 hu0
  obtain ⟨s2, hreclaim, hfcx2, hl0w, hu0w, hframe2⟩ :=
    vPortReclaimCSA_pair s1 l u hl0 hl20 hu0 hu20 hlu
      (by rw [hlow]; exact tagged_link_masked hu20)
      (by rw [hupp hlu]; decide)
  refine ⟨s1, l, s2, hbuild, hreclaim, ?_⟩
  simp only [poolChain, Bool.and_eq_true, beq_iff_eq, bne_iff_ne]
  refine ⟨⟨by rw [hfcx2]; exact portCSA_TO_ADDRESS_of_lt hl20, hl0⟩,
    ⟨by rw [hl0w]; exact portCSA_TO_ADDRESS_of_lt hu20, hu0⟩, ?_⟩
  rw [hu0w, hfcx1]
  refine poolChain_frame rest (s.mem u 0) hrest (fun a ha => ?_)
  have hal : a ≠ l := fun h => hlnotin (h ▸ List.mem_cons_of_mem u ha)
  have hau : a ≠ u := fun h => hunotin (h ▸ ha)
  rw [hframe2 a 0 hal hau, hframe1 a 0 hal hau]

/-- Witness for C6 at the concrete two-record pool. -/
theorem build_then_reclaim_restores_pool_witness :
    poolChain pool2.mem pool2.fcx [1, 2] = true ∧
    ([1, 2] : List Nat).Nodup ∧
    ∃ (s1 : CSAState) (h : Nat) (s2 : CSAState),
      pxPortInitialiseStack pool2 100 200 300 = some (s1, h) ∧
      vPortReclaimCSA s1 h 2 = some s2 ∧
      poolChain s2.mem s2.fcx [1, 2] = true :=
  ⟨by decide, by decide,
   build_then_reclaim_restores_pool pool2 100 200 300 1 2 [] (by decide) (by decide)⟩

/-! ### Theorems: claim C3 -/

/-- Counterexample to C3 as stated: at a concrete state in which PCXI holds
5, the record at address 5 has link word 7, task 0 is current and task 1's
saved handle is 9, prvYield neither records the PCXI register value (5) into
the current task's control-block field (it records the named record's link
word 7), nor writes the newly selected task's saved-context identifier (9)
into the PCXI register (PCXI remains 5; the identifier is written into the
record's link word instead). -/
theorem prvYield_register_claim_false :
    ¬ ((prvYield 1 ys0).tcbTop ys0.curTask = ys0.pcxi ∧
       (prvYield 1 ys0).pcxi = ys0.tcbTop 1) := by
  decide

/-- C3 (amended): on every switch, prvYield first records the link word of
the record designated by the dedicated context register PCXI — the
currently-executing task's most recent context link — into that task's
control-block saved-context field, then installs the task chosen by the
selection policy, and finally writes the newly selected task's saved-context
identifier into that same link word, which the interrupt/trap return
sequence consumes to resume that task; the PCXI register itself and all
other memory words are unchanged. -/
theorem prvYield_save_select_restore (s : YieldState) (sel : Nat) :
    (prvYield sel s).tcbTop s.curTask = s.mem (portCSA_TO_ADDRESS s.pcxi) 0 ∧
    (prvYield sel s).curTask = sel ∧
    (prvYield sel s).pcxi = s.pcxi ∧
    (prvYield sel s).mem (portCSA_TO_ADDRESS s.pcxi) 0 = (prvYield sel s).tcbTop sel ∧
    (∀ a w, ¬(a = portCSA_TO_ADDRESS s.pcxi ∧ w = 0) →
      (prvYield sel s).mem a w = s.mem a w) ∧
    (∀ t, t ≠ s.curTask → (prvYield sel s).tcbTop t = s.tcbTop t) :=
  ⟨if_pos rfl, rfl, rfl, memUpdate_self,
   fun _ _ h => memUpdate_ne h, fun _ ht => if_neg ht⟩

/-- Witness for C3's amended theorem at the concrete state `ys0`. -/
theorem prvYield_save_select_restore_witness :
    (prvYield 1 ys0).tcbTop ys0.curTask = ys0.mem (portCSA_TO_ADDRESS ys0.pcxi) 0 ∧
    (prvYield 1 ys0).curTask = 1 ∧
    (prvYield 1 ys0).pcxi = ys0.pcxi ∧
    (prvYield 1 ys0).mem (portCSA_TO_ADDRESS ys0.pcxi) 0 = (prvYield 1 ys0).tcbTop 1 ∧
    (∀ a w, ¬(a = portCSA_TO_ADDRESS ys0.pcxi ∧ w = 0) →
      (prvYield 1 ys0).mem a w = ys0.mem a w) ∧
    (∀ t, t ≠ ys0.curTask → (prvYield 1 ys0).tcbTop t = ys0.tcbTop t) :=
  prvYield_save_select_restore ys0 1

/-! ### Theorems: claim C4 -/

/-- After a switch to `sel`, the current task is `sel` and the link word
consumed by the return sequence holds that task's saved-context field. -/
theorem prvYield_installs (s : YieldState) (sel : Nat) :
    (prvYield sel s).curTask = sel ∧
    (prvYield sel s).mem (portCSA_TO_ADDRESS (prvYield sel s).pcxi) 0 =
      (prvYield sel s).tcbTop sel :=
  ⟨rfl, memUpdate_self⟩

/-- An event that performs no switch leaves the switch-engine state
untouched. -/
theorem stepEvent_of_eventSel_none (prio : Nat) (e : SwitchEvent)
    (st : Nat × YieldState) (h : eventSel e = none) :
    (stepEvent prio e st).2 = st.2 := by
  cases e with
  | yieldTrap sel => exact Option.noConfusion h
  | yieldCall sel => exact Option.noConfusion h
  | tick yieldRequired sel =>
    cases yieldRequired with
    | false => rfl
    | true => exact Option.noConfusion h

/-- An event that performs a switch installs its selection. -/
theorem stepEvent_of_eventSel_some (prio : Nat) (e : SwitchEvent)
    (st : Nat × YieldState) (sel : Nat) (h : eventSel e = some sel) :
    (stepEvent prio e st).2.curTask = sel ∧
    (stepEvent prio e st).2.mem (portCSA_TO_ADDRESS (stepEvent prio e st).2.pcxi) 0 =
      (stepEvent prio e st).2.tcbTop sel := by
  cases e with
  | yieldTrap s' =>
    exact Option.some.inj h ▸ prvYield_installs st.2 s'
  | yieldCall s' =>
    exact Option.some.inj h ▸ prvYield_installs st.2 s'
  | tick yieldRequired s' =>
    cases yieldRequired with
    | false => exact Option.noConfusion h
    | true => exact Option.some.inj h ▸ prvYield_installs st.2 s'

/-- A switch-free event list leaves the switch-engine state untouched. -/
theorem runEvents_of_lastSwitchSel_none (prio : Nat) :
    ∀ (evs : List SwitchEvent) (st : Nat × YieldState),
      lastSwitchSel evs = none → (runEvents prio evs st).2 = st.2 := by
  intro evs
  induction evs with
  | nil => intro st _; rfl
  | cons e rest ih =>
    intro st h
    simp only [lastSwitchSel] at h
    cases hrest : lastSwitchSel rest with
    | some x => rw [hrest] at h; simp at h
    | none =>
      rw [hrest] at h
      simp only [runEvents]
      rw [ih (stepEvent prio e st) hrest, stepEvent_of_eventSel_none prio e st h]

/-- C4: for every interleaving of voluntary-yield switches (vPortYield and
vTrapYield) and tick-driven switches (vPortSystemTickHandler) on a single
core, after each completed switch the per-core current-task pointer equals
the selection installed by the last call to the external task-selection
policy, and the context identifier installed for resumption is that task's
saved-context handle. -/
theorem switch_current_equals_last_selection (prio : Nat) :
    ∀ (evs : List SwitchEvent) (st : Nat × YieldState) (sel : Nat),
      lastSwitchSel evs = some sel →
      (runEvents prio evs st).2.curTask = sel ∧
      (runEvents prio evs st).2.mem
          (portCSA_TO_ADDRESS (runEvents prio evs st).2.pcxi) 0 =
        (runEvents prio evs st).2.tcbTop sel := by
  intro evs
  induction evs with
  | nil => intro st sel h; simp [lastSwitchSel] at h
  | cons e rest ih =>
    intro st sel h
    simp only [lastSwitchSel] at h
    simp only [runEvents]
    cases hrest : lastSwitchSel rest with
    | some x =>
      rw [hrest] at h
      simp only [Option.some.injEq] at h
      exact h ▸ ih (stepEvent prio e st) x hrest
    | none =>
      rw [hrest] at h
      simp only at h
      have hstep := stepEvent_of_eventSel_some prio e st sel h
      have hrun := runEvents_of_lastSwitchSel_none prio rest (stepEvent prio e st) hrest
      rw [hrun]
      exact hstep

/-- Witness for C4 on a concrete interleaving: a no-switch tick, a trap
yield to task 3, a switching tick to task 1 and a final no-switch tick. -/
theorem switch_current_equals_last_selection_witness :
    lastSwitchSel [SwitchEvent.tick false 9, SwitchEvent.yieldTrap 3,
      SwitchEvent.tick true 1, SwitchEvent.tick false 9] = some 1 ∧
    ((runEvents 64 [SwitchEvent.tick false 9, SwitchEvent.yieldTrap 3,
        SwitchEvent.tick true 1, SwitchEvent.tick false 9] (0, ys0)).2.curTask = 1 ∧
     (runEvents 64 [SwitchEvent.tick false 9, SwitchEvent.yieldTrap 3,
        SwitchEvent.tick true 1, SwitchEvent.tick false 9] (0, ys0)).2.mem
          (portCSA_TO_ADDRESS
            (runEvents 64 [SwitchEvent.tick false 9, SwitchEvent.yieldTrap 3,
              SwitchEvent.tick true 1, SwitchEvent.tick false 9] (0, ys0)).2.pcxi) 0 =
        (runEvents 64 [SwitchEvent.tick false 9, SwitchEvent.yieldTrap 3,
          SwitchEvent.tick true 1, SwitchEvent.tick false 9] (0, ys0)).2.tcbTop 1) :=
  ⟨by decide,
   switch_current_equals_last_selection 64
     [SwitchEvent.tick false 9, SwitchEvent.yieldTrap 3,
      SwitchEvent.tick true 1, SwitchEvent.tick false 9] (0, ys0) 1 (by decide)⟩

/-! ### CCPN bit-field lemmas -/

/-- The 32-bit complement of the CCPN mask. -/
theorem hi_mask_eq : (0xFFFFFFFF : Nat) ^^^ portCCPN_MASK = 0xFFFFFF00 := by decide

/-- The CCPN mask is the low byte. -/
theorem portCCPN_MASK_eq : portCCPN_MASK = 2 ^ 8 - 1 := by decide

/-- Decomposition of the high mask used for test-bit reasoning. -/
theorem hi_mask_decomp : (0xFFFFFF00 : Nat) = 2 ^ 8 * (2 ^ 24 - 1) := by decide

/-- Replacing the CCPN field of a 32-bit register value: the new CCPN field
is the value written, the result stays a 32-bit value, and every bit above
the CCPN field is unchanged. -/
theorem ccpn_update_facts (x v : Nat) (hv : v < 256) (hx : x < 2 ^ 32) :
    ((x &&& (0xFFFFFFFF ^^^ portCCPN_MASK)) ||| v) &&& portCCPN_MASK = v ∧
    ((x &&& (0xFFFFFFFF ^^^ portCCPN_MASK)) ||| v) < 2 ^ 32 ∧
    (∀ i, 8 ≤ i →
      ((x &&& (0xFFFFFFFF ^^^ portCCPN_MASK)) ||| v).testBit i = x.testBit i) := by
  rw [hi_mask_eq]
  have hv8 : v < 2 ^ 8 := lt_of_lt_of_eq hv (by decide)
  refine ⟨?_, ?_, ?_⟩
  · rw [Nat.and_distrib_right, Nat.and_assoc,
      (by decide : (0xFFFFFF00 : Nat) &&& portCCPN_MASK = 0), Nat.and_zero,
      Nat.zero_or, portCCPN_MASK_eq, Nat.and_pow_two_sub_one_of_lt_two_pow hv8]
  · exact Nat.or_lt_two_pow (Nat.and_lt_two_pow x (by decide))
      (lt_trans hv (by decide))
  · intro i hi
    have h2i : (256 : Nat) ≤ 2 ^ i :=
      le_trans (by decide) (Nat.pow_le_pow_right (by decide) hi)
    have hvbit : v.testBit i = false := Nat.testBit_lt_two_pow (lt_of_lt_of_le hv h2i)
    have hcbit : (0xFFFFFF00 : Nat).testBit i =
        (decide (i ≥ 8) && (2 ^ 24 - 1 : Nat).testBit (i - 8)) := by
      rw [hi_mask_decomp, Nat.testBit_mul_pow_two]
    rw [Nat.testBit_or, Nat.testBit_and, hvbit, Bool.or_false]
    rcases lt_or_ge i 32 with h32 | h32
    · have hc : (0xFFFFFF00 : Nat).testBit i = true := by
        rw [hcbit, Nat.testBit_two_pow_sub_one, decide_eq_true hi,
          decide_eq_true (Nat.sub_lt_right_of_lt_add hi h32), Bool.and_self]
      rw [hc, Bool.and_true]
    · have hxbit : x.testBit i = false :=
        Nat.testBit_lt_two_pow
          (lt_of_lt_of_le hx (Nat.pow_le_pow_right (by decide) h32))
      have hc : (0xFFFFFF00 : Nat).testBit i = false := by
        rw [hcbit, Nat.testBit_two_pow_sub_one,
          decide_eq_false (Nat.not_lt.mpr (Nat.le_sub_of_add_le h32)), Bool.and_false]
      rw [hc, Bool.and_false, hxbit]

/-! ### Theorems: claim C10 -/

/-- C10: uxPortSetInterruptMaskFromISR returns exactly the previous CCPN
field of the interrupt control register (the prior value masked to the CCPN
bits, suitable for the later mask-clear operation), and writes the register
back with the CCPN field set to the kernel's maximum syscall priority while
every other bit of the 32-bit register is unchanged. -/
theorem uxPortSetInterruptMaskFromISR_spec (prio icr : Nat)
    (hprio : prio < 256) (hicr : icr < 2 ^ 32) :
    (uxPortSetInterruptMaskFromISR prio icr).1 = icr &&& portCCPN_MASK ∧
    (uxPortSetInterruptMaskFromISR prio icr).2 &&& portCCPN_MASK = prio ∧
    (∀ i, 8 ≤ i →
      ((uxPortSetInterruptMaskFromISR prio icr).2).testBit i = icr.testBit i) := by
  obtain ⟨h1, _, h3⟩ := ccpn_update_facts icr prio hprio hicr
  exact ⟨rfl, h1, h3⟩

/-- Witness for C10 at a concrete register value and priority. -/
theorem uxPortSetInterruptMaskFromISR_spec_witness :
    (64 : Nat) < 256 ∧ (0x12345678 : Nat) < 2 ^ 32 ∧
    ((uxPortSetInterruptMaskFromISR 64 0x12345678).1 = 0x12345678 &&& portCCPN_MASK ∧
     (uxPortSetInterruptMaskFromISR 64 0x12345678).2 &&& portCCPN_MASK = 64 ∧
     (∀ i, 8 ≤ i →
       ((uxPortSetInterruptMaskFromISR 64 0x12345678).2).testBit i =
         (0x12345678 : Nat).testBit i)) :=
  ⟨by decide, by decide,
   uxPortSetInterruptMaskFromISR_spec 64 0x12345678 (by decide) (by decide)⟩

/-! ### Theorems: claim C8 -/

/-- C8: on each invocation of the per-core tick ISR, the timer comparator
advances by exactly one tick period P; the tick-accounting function runs
exactly once, under an interrupt mask raised to the kernel's maximum syscall
priority; the mask is cleared afterwards (the final ICR has the original
CCPN field and all other register bits unchanged); and the full
save/select/restore switch (prvYield) is performed if and only if tick
accounting reports a switch due. -/
theorem isrSTM_tick_spec (prio P sel comparator icr : Nat) (yieldRequired : Bool)
    (ys : YieldState) (hprio : prio < 256) (hicr : icr < 2 ^ 32) :
    (isrSTM prio P yieldRequired sel comparator icr ys).1 = comparator + P ∧
    (isrSTM prio P yieldRequired sel comparator icr ys).2.2.2 = [prio] ∧
    (isrSTM prio P yieldRequired sel comparator icr ys).2.1 &&& portCCPN_MASK =
      icr &&& portCCPN_MASK ∧
    (∀ i, 8 ≤ i →
      ((isrSTM prio P yieldRequired sel comparator icr ys).2.1).testBit i =
        icr.testBit i) ∧
    (yieldRequired = true →
      (isrSTM prio P yieldRequired sel comparator icr ys).2.2.1 = prvYield sel ys) ∧
    (yieldRequired = false →
      (isrSTM prio P yieldRequired sel comparator icr ys).2.2.1 = ys) := by
  have hv2 : (icr &&& portCCPN_MASK) &&& portCCPN_MASK < 256 :=
    lt_of_le_of_lt Nat.and_le_right (by decide)
  obtain ⟨hA1, hA2, hA3⟩ := ccpn_update_facts icr prio hprio hicr
  obtain ⟨hB1, hB2, hB3⟩ :=
    ccpn_update_facts ((icr &&& (0xFFFFFFFF ^^^ portCCPN_MASK)) ||| prio)
      ((icr &&& portCCPN_MASK) &&& portCCPN_MASK) hv2 hA2
  refine ⟨rfl, ?_, ?_, ?_, ?_, ?_⟩
  · exact congrArg (fun z => [z]) hA1
  · exact hB1.trans ((Nat.and_assoc icr _ _).trans
      (congrArg (icr &&& ·) (Nat.and_self portCCPN_MASK)))
  · intro i hi
    exact (hB3 i hi).trans (hA3 i hi)
  · intro h; subst h; rfl
  · intro h; subst h; rfl

/-- Witness for C8 at concrete inputs with a switch due. -/
theorem isrSTM_tick_spec_witness :
    (64 : Nat) < 256 ∧ (0x1234 : Nat) < 2 ^ 32 ∧
    ((isrSTM 64 750000 true 1 123 0x1234 ys0).1 = 123 + 750000 ∧
     (isrSTM 64 750000 true 1 123 0x1234 ys0).2.2.2 = [64] ∧
     (isrSTM 64 750000 true 1 123 0x1234 ys0).2.1 &&& portCCPN_MASK =
       0x1234 &&& portCCPN_MASK ∧
     (∀ i, 8 ≤ i →
       ((isrSTM 64 750000 true 1 123 0x1234 ys0).2.1).testBit i =
         (0x1234 : Nat).testBit i) ∧
     (true = true → (isrSTM 64 750000 true 1 123 0x1234 ys0).2.2.1 = prvYield 1 ys0) ∧
     (true = false → (isrSTM 64 750000 true 1 123 0x1234 ys0).2.2.1 = ys0)) :=
  ⟨by decide, by decide,
   isrSTM_tick_spec 64 750000 1 123 0x1234 true ys0 (by decide) (by decide)⟩

/-! ### Theorems: claim C9 -/

/-- C9: with the current TCB holding the saved-context handle of a freshly
built first task, the scheduler-start sequence does not return to its
caller: the equivalent of a restore transfers control at its `return` to the
task's entry address (so control can come back to the caller only if no task
context was installed, the startup-failure case), with the task's argument
restored to A4, PCXI left naming the task's upper context, the PSW
call-depth byte cleared and SYSCON loaded with its initial value. -/
theorem xPortStartScheduler_enters_first_task
    (s : CSAState) (tos code param l u : Nat) (b : BootState) (s1 : CSAState)
    (hldef : l = portCSA_TO_ADDRESS s.fcx)
    (hudef : u = portCSA_TO_ADDRESS (s.mem l 0))
    (hl : l ≠ 0) (hu : u ≠ 0)
    (hbuild : pxPortInitialiseStack s tos code param = some (s1, l))
    (hmem : b.mem = s1.mem) (htcb : b.curTCBTop = l) :
    (xPortStartScheduler b).2 = code ∧
    (xPortStartScheduler b).1.a4 = param ∧
    (xPortStartScheduler b).1.pcxi = (portINITIAL_PCXI_UPPER_CONTEXT_WORD ||| u) ∧
    (xPortStartScheduler b).1.psw = b.psw &&& portRESTORE_PSW_MASK ∧
    (xPortStartScheduler b).1.syscon = portINITIAL_SYSCON ∧
    (∀ callerRA, callerRA ≠ code → (xPortStartScheduler b).2 ≠ callerRA) := by
  obtain ⟨s1', hbuild', -, hlow, hcode, hparam, -, -, -, -, -, -⟩ :=
    pxPortInitialiseStack_parts s tos code param l u hldef hudef hl hu
  have hs1 : s1 = s1' :=
    congrArg Prod.fst (Option.some.inj (hbuild.symm.trans hbuild'))
  have hl20 : l < 2 ^ 20 := hldef ▸ portCSA_TO_ADDRESS_lt s.fcx
  have htarget : (xPortStartScheduler b).2 = code := by
    simp only [xPortStartScheduler, rslcx]
    rw [htcb, portCSA_TO_ADDRESS_of_lt hl20, hmem, hs1, hcode]
  refine ⟨htarget, ?_, ?_, rfl, rfl, ?_⟩
  · simp only [xPortStartScheduler, rslcx]
    rw [htcb, portCSA_TO_ADDRESS_of_lt hl20, hmem, hs1, hparam]
  · simp only [xPortStartScheduler, rslcx]
    rw [htcb, portCSA_TO_ADDRESS_of_lt hl20, hmem, hs1, hlow]
  · intro callerRA hra
    rw [htarget]
    exact Ne.symm hra

/-- Witness for C9: bootstrapping on the context built over `pool2` resumes
at the entry address 200 with argument 300. -/
theorem xPortStartScheduler_enters_first_task_witness :
    pxPortInitialiseStack pool2 100 200 300 = some (builtPool2, 1) ∧
    ((xPortStartScheduler bootB).2 = 200 ∧
     (xPortStartScheduler bootB).1.a4 = 300 ∧
     (xPortStartScheduler bootB).1.pcxi = (portINITIAL_PCXI_UPPER_CONTEXT_WORD ||| 2) ∧
     (xPortStartScheduler bootB).1.psw = bootB.psw &&& portRESTORE_PSW_MASK ∧
     (xPortStartScheduler bootB).1.syscon = portINITIAL_SYSCON ∧
     (∀ callerRA, callerRA ≠ 200 → (xPortStartScheduler bootB).2 ≠ callerRA)) :=
  ⟨rfl,
   xPortStartScheduler_enters_first_task pool2 100 200 300 1 2 bootB builtPool2
     (by decide) (by decide) (by decide) (by decide) rfl rfl rfl⟩

/-! ### Pool-invariant lemmas -/

/-- A memory and register value determine the free pool list uniquely. -/
theorem poolChain_det :
    ∀ (p q : List Nat) (m : Mem) (f : Nat),
      poolChain m f p = true → poolChain m f q = true → p = q := by
  intro p
  induction p with
  | nil =>
    intro q m f hp hq
    cases q with
    | nil => rfl
    | cons b q' =>
      simp only [poolChain, beq_iff_eq] at hp
      simp only [poolChain, Bool.and_eq_true, beq_iff_eq, bne_iff_ne] at hq
      exact absurd (hq.1.1.symm.trans hp) hq.1.2
  | cons a p' ih =>
    intro q m f hp hq
    cases q with
    | nil =>
      simp only [poolChain, beq_iff_eq] at hq
      simp only [poolChain, Bool.and_eq_true, beq_iff_eq, bne_iff_ne] at hp
      exact absurd (hp.1.1.symm.trans hq) hp.1.2
    | cons b q' =>
      simp only [poolChain, Bool.and_eq_true, beq_iff_eq, bne_iff_ne] at hp hq
      have hab : a = b := hp.1.1.symm.trans hq.1.1
      subst hab
      rw [ih q' m (m a 0) hp.2 hq.2]

/-- A duplicate-free list of members of `U` is no longer than `U`. -/
theorem nodup_subset_length {l U : List Nat} (hnd : l.Nodup)
    (hsub : ∀ a ∈ l, a ∈ U) : l.length ≤ U.length :=
  calc l.length = l.toFinset.card := (List.toFinset_card_of_nodup hnd).symm
    _ ≤ U.toFinset.card := Finset.card_le_card fun a ha =>
        List.mem_toFinset.mpr (hsub a (List.mem_toFinset.mp ha))
    _ ≤ U.length := List.toFinset_card_le U

/-- The cells of a live chain appear in the flattened cell list. -/
theorem cells_mem_flatten {c : Nat × Nat} {live : List (Nat × Nat)} (hc : c ∈ live) :
    c.1 ∈ (live.map chainCells).flatten ∧ c.2 ∈ (live.map chainCells).flatten :=
  ⟨List.mem_flatten.mpr ⟨chainCells c, List.mem_map_of_mem _ hc, by simp [chainCells]⟩,
   List.mem_flatten.mpr ⟨chainCells c, List.mem_map_of_mem _ hc, by simp [chainCells]⟩⟩

/-- Removing a member yields a permutation with it put back in front. -/
theorem perm_cons_removeFirst :
    ∀ (live : List (Nat × Nat)) (c : Nat × Nat), c ∈ live →
      List.Perm live (c :: removeFirst live c) := by
  intro live
  induction live with
  | nil => intro c hc; simp at hc
  | cons x xs ih =>
    intro c hc
    by_cases hxc : x = c
    · subst hxc
      simp only [removeFirst, if_pos rfl]
      exact List.Perm.refl _
    · have hcx : c ∈ xs := by
        rcases List.mem_cons.mp hc with h | h
        · exact absurd h.symm hxc
        · exact h
      simp only [removeFirst, if_neg hxc]
      exact (List.Perm.cons x (ih c hcx)).trans (List.Perm.swap c x _)

/-- Membership survives removal of another chain. -/
theorem mem_of_mem_removeFirst :
    ∀ (live : List (Nat × Nat)) (c c' : Nat × Nat),
      c' ∈ removeFirst live c → c' ∈ live := by
  intro live
  induction live with
  | nil => intro c c' hc; simp [removeFirst] at hc
  | cons x xs ih =>
    intro c c' hc
    by_cases hxc : x = c
    · rw [removeFirst, if_pos hxc] at hc
      exact List.mem_cons_of_mem x hc
    · rw [removeFirst, if_neg hxc] at hc
      rcases List.mem_cons.mp hc with h | h
      · exact h ▸ List.mem_cons_self x xs
      · exact List.mem_cons_of_mem x (ih c c' h)

/-- One allocate or release step preserves the pool-system invariant. -/
theorem stepPoolOp_preserves (U : List Nat) (sys : PoolSys) (op : PoolOp)
    (h : poolInv U sys) : poolInv U (stepPoolOp sys op) := by
  obtain ⟨pool, hpc, hnd, hU, hlive⟩ := h
  cases op with
  | alloc tos code param =>
    cases pool with
    | nil =>
      have h0 : portCSA_TO_ADDRESS sys.st.fcx = 0 := by
        simpa [poolChain] using hpc
      have hnone := pxPortInitialiseStack_none sys.st tos code param (Or.inl h0)
      simp only [stepPoolOp, hnone]
      exact ⟨[], hpc, hnd, hU, hlive⟩
    | cons l pool' =>
      cases pool' with
      | nil =>
        simp only [poolChain, Bool.and_eq_true, beq_iff_eq, bne_iff_ne] at hpc
        have hnone := pxPortInitialiseStack_none sys.st tos code param
          (Or.inr (by rw [hpc.1.1]; exact hpc.2))
        simp only [stepPoolOp, hnone]
        refine ⟨[l], ?_, hnd, hU, hlive⟩
        simp only [poolChain, Bool.and_eq_true, beq_iff_eq, bne_iff_ne]
        exact hpc
      | cons u rest =>
        simp only [poolChain, Bool.and_eq_true, beq_iff_eq, bne_iff_ne] at hpc
        obtain ⟨⟨hfl, hl0⟩, ⟨hul, hu0⟩, hrest⟩ := hpc
        have hl20 : l < 2 ^ 20 := hfl ▸ portCSA_TO_ADDRESS_lt sys.st.fcx
        have hu20 : u < 2 ^ 20 := hul ▸ portCSA_TO_ADDRESS_lt (sys.st.mem l 0)
        have hndp : (l :: u :: rest).Nodup := List.Nodup.of_append_left hnd
        have hlu : l ≠ u := fun h =>
          (List.nodup_cons.mp hndp).1 (h ▸ List.mem_cons_self u rest)
        have hlnotin : l ∉ u :: rest := (List.nodup_cons.mp hndp).1
        have hunotin : u ∉ rest :=
          (List.nodup_cons.mp (List.Nodup.of_cons hndp)).1
        obtain ⟨s1, hbuild, hfcx1, hlow, -, -, hupp, -, -, -, -, hframe⟩ :=
          pxPortInitialiseStack_parts sys.st tos code param l u hfl.symm hul.symm hl0 hu0
        simp only [stepPoolOp, hbuild]
        rw [hfl, hul]
        have hperm : List.Perm (rest ++ l :: u :: (sys.live.map chainCells).flatten)
            (l :: u :: (rest ++ (sys.live.map chainCells).flatten)) :=
          List.perm_middle.trans (List.Perm.cons l List.perm_middle)
        refine ⟨rest, ?_, ?_, ?_, ?_⟩
        · rw [show (⟨s1, (l, u) :: sys.live⟩ : PoolSys).st = s1 from rfl, hfcx1]
          refine poolChain_frame rest (sys.st.mem u 0) hrest (fun a ha => ?_)
          have hal : a ≠ l := fun h => hlnotin (h ▸ List.mem_cons_of_mem u ha)
          have hau : a ≠ u := fun h => hunotin (h ▸ ha)
          exact hframe a 0 hal hau
        · exact hperm.nodup_iff.mpr hnd
        · intro a ha
          exact hU a (hperm.subset ha)
        · intro c hc
          rcases List.mem_cons.mp hc with rfl | hc
          · simp only [liveOK]
            exact ⟨hl0, hl20, hu0, hu20, hlow, hupp hlu⟩
          · have hold := hlive c hc
            have hc1 := (cells_mem_flatten hc).1
            have hc2 := (cells_mem_flatten hc).2
            have hdisj := List.disjoint_of_nodup_append hnd
            have h1l : c.1 ≠ l := fun h => hdisj (List.mem_cons_self l _) (h ▸ hc1)
            have h1u : c.1 ≠ u := fun h =>
              hdisj (List.mem_cons_of_mem l (List.mem_cons_self u rest)) (h ▸ hc1)
            have h2l : c.2 ≠ l := fun h => hdisj (List.mem_cons_self l _) (h ▸ hc2)
            have h2u : c.2 ≠ u := fun h =>
              hdisj (List.mem_cons_of_mem l (List.mem_cons_self u rest)) (h ▸ hc2)
            simp only [liveOK] at hold ⊢
            exact ⟨hold.1, hold.2.1, hold.2.2.1, hold.2.2.2.1,
              by rw [hframe c.1 0 h1l h1u]; exact hold.2.2.2.2.1,
              by rw [hframe c.2 0 h2l h2u]; exact hold.2.2.2.2.2⟩
  | release c =>
    by_cases hcmem : c ∈ sys.live
    · have hok := hlive c hcmem
      simp only [liveOK] at hok
      obtain ⟨h10, h120, h20, h220, hclow, hcupp⟩ := hok
      have hndj : ((sys.live.map chainCells).flatten).Nodup :=
        (List.nodup_append.mp hnd).2.1
      have hcells : (chainCells c).Nodup :=
        (List.nodup_flatten.mp hndj).1 _ (List.mem_map_of_mem _ hcmem)
      have h12 : c.1 ≠ c.2 := by simpa [chainCells] using hcells
      obtain ⟨s2, hrec, hfcx2, hm1, hm2, hframe⟩ :=
        vPortReclaimCSA_pair sys.st c.1 c.2 h10 h120 h20 h220 h12
          (by rw [hclow]; exact tagged_link_masked h220)
          (by rw [hcupp]; exact Nat.zero_and _)
      simp only [stepPoolOp, if_pos hcmem, hrec]
      have hpj : List.Perm ((sys.live.map chainCells).flatten)
          (c.1 :: c.2 :: ((removeFirst sys.live c).map chainCells).flatten) := by
        have hbase := ((perm_cons_removeFirst sys.live c hcmem).map chainCells).flatten
        simpa [chainCells] using hbase
      have hperm : List.Perm (pool ++ (sys.live.map chainCells).flatten)
          (c.1 :: c.2 :: (pool ++ ((removeFirst sys.live c).map chainCells).flatten)) :=
        (List.Perm.append_left pool hpj).trans
          (List.perm_middle.trans (List.Perm.cons c.1 List.perm_middle))
      have hndT : (c.1 :: c.2 :: (pool ++
          ((removeFirst sys.live c).map chainCells).flatten)).Nodup :=
        hperm.nodup hnd
      have hnc1 : c.1 ∉ c.2 :: (pool ++ ((removeFirst sys.live c).map chainCells).flatten) :=
        (List.nodup_cons.mp hndT).1
      have hnc2 : c.2 ∉ pool ++ ((removeFirst sys.live c).map chainCells).flatten :=
        (List.nodup_cons.mp (List.nodup_cons.mp hndT).2).1
      refine ⟨c.1 :: c.2 :: pool, ?_, ?_, ?_, ?_⟩
      · simp only [poolChain, Bool.and_eq_true, beq_iff_eq, bne_iff_ne]
        refine ⟨⟨by rw [hfcx2]; exact portCSA_TO_ADDRESS_of_lt h120, h10⟩,
          ⟨by rw [hm1]; exact portCSA_TO_ADDRESS_of_lt h220, h20⟩, ?_⟩
        rw [hm2]
        refine poolChain_frame pool sys.st.fcx hpc (fun a ha => ?_)
        have ha1 : a ≠ c.1 := fun h =>
          hnc1 (h ▸ List.mem_cons_of_mem c.2 (List.mem_append_left _ ha))
        have ha2 : a ≠ c.2 := fun h => hnc2 (h ▸ List.mem_append_left _ ha)
        exact hframe a 0 ha1 ha2
      · exact hndT
      · intro a ha
        exact hU a (hperm.symm.subset ha)
      · intro c' hc'
        have hold := hlive c' (mem_of_mem_removeFirst sys.live c c' hc')
        have hc'1 := (cells_mem_flatten hc').1
        have hc'2 := (cells_mem_flatten hc').2
        have hj1 : c.1 ∉ ((removeFirst sys.live c).map chainCells).flatten := fun hmem =>
          hnc1 (List.mem_cons_of_mem c.2 (List.mem_append_right _ hmem))
        have hj2 : c.2 ∉ ((removeFirst sys.live c).map chainCells).flatten := fun hmem =>
          hnc2 (List.mem_append_right _ hmem)
        have h1c1 : c'.1 ≠ c.1 := fun h => hj1 (h ▸ hc'1)
        have h1c2 : c'.1 ≠ c.2 := fun h => hj2 (h ▸ hc'1)
        have h2c1 : c'.2 ≠ c.1 := fun h => hj1 (h ▸ hc'2)
        have h2c2 : c'.2 ≠ c.2 := fun h => hj2 (h ▸ hc'2)
        simp only [liveOK] at hold ⊢
        exact ⟨hold.1, hold.2.1, hold.2.2.1, hold.2.2.2.1,
          by rw [hframe c'.1 0 h1c1 h1c2]; exact hold.2.2.2.2.1,
          by rw [hframe c'.2 0 h2c1 h2c2]; exact hold.2.2.2.2.2⟩
    · simp only [stepPoolOp, if_neg hcmem]
      exact ⟨pool, hpc, hnd, hU, hlive⟩

/-- Every sequence of pool operations preserves the invariant. -/
theorem runPoolOps_preserves (U : List Nat) :
    ∀ (ops : List PoolOp) (sys : PoolSys),
      poolInv U sys → poolInv U (runPoolOps ops sys) := by
  intro ops
  induction ops with
  | nil => intro sys h; exact h
  | cons op rest ih =>
    intro sys h
    exact ih (stepPoolOp sys op) (stepPoolOp_preserves U sys op h)

/-! ### Theorems: claim C7 -/

/-- C7: for every sequence of allocate and release operations over a free
pool drawn from a universe of N records, the invariant holds at every
reachable state: the free pool never contains more than N records, no
record is ever reachable from two chains at once (the pool and all live
chains are pairwise disjoint), and allocation never reports success when
the pool is empty. -/
theorem pool_sequences_safe (U : List Nat) (ops : List PoolOp) (sys : PoolSys)
    (hinv : poolInv U sys) :
    poolInv U (runPoolOps ops sys) ∧
    (∀ pool, poolChain (runPoolOps ops sys).st.mem
        (runPoolOps ops sys).st.fcx pool = true → pool.length ≤ U.length) ∧
    (∀ t c p, portCSA_TO_ADDRESS (runPoolOps ops sys).st.fcx = 0 →
      pxPortInitialiseStack (runPoolOps ops sys).st t c p = none) := by
  have hrun := runPoolOps_preserves U ops sys hinv
  refine ⟨hrun, ?_, ?_⟩
  · intro pool hpc
    obtain ⟨pool', hpc', hnd, hU, -⟩ := hrun
    have heq : pool = pool' := poolChain_det pool pool' _ _ hpc hpc'
    subst heq
    exact nodup_subset_length (List.Nodup.of_append_left hnd)
      (fun a ha => hU a (List.mem_append_left _ ha))
  · intro t c p h0
    exact pxPortInitialiseStack_none _ t c p (Or.inl h0)

/-- Witness for C7: one allocation on the two-record pool. -/
theorem pool_sequences_safe_witness :
    poolInv [1, 2] sys2 ∧
    (poolInv [1, 2] (runPoolOps [PoolOp.alloc 10 20 30] sys2) ∧
     (∀ pool, poolChain (runPoolOps [PoolOp.alloc 10 20 30] sys2).st.mem
        (runPoolOps [PoolOp.alloc 10 20 30] sys2).st.fcx pool = true →
        pool.length ≤ ([1, 2] : List Nat).length) ∧
     (∀ t c p,
        portCSA_TO_ADDRESS (runPoolOps [PoolOp.alloc 10 20 30] sys2).st.fcx = 0 →
        pxPortInitialiseStack (runPoolOps [PoolOp.alloc 10 20 30] sys2).st t c p =
          none)) := by
  have hinv : poolInv [1, 2] sys2 :=
    ⟨[1, 2], by decide, by decide, by decide, by intro c hc; simp [sys2] at hc⟩
  exact ⟨hinv, pool_sequences_safe [1, 2] [PoolOp.alloc 10 20 30] sys2 hinv⟩

end TriCorePort
